import Mathlib

/-!
# Verification of the wdio-errorshot-reporter core logic

Shallow embedding of the filename-templating and browser-inference logic of
the `wdio-errorshot-reporter` plugin.  Strings are modelled as `List Char`
(the sequence of UTF-16-ish code points of a JavaScript string); the
JavaScript functions of `lib/wdio-errorshot-reporter.js` and
`lib/helpers/slugify.js` are translated into executable Lean functions, and
the claims of the specification are proved or refuted about them.
-/

namespace Errorshot

/-- JavaScript string, modelled as a list of characters. -/
abbrev JStr := List Char

/-- Regex `\w`: ASCII word character `[A-Za-z0-9_]`. -/
def isWordChar (c : Char) : Bool :=
  (97 ≤ c.toNat && c.toNat ≤ 122) ||   -- a-z
  (65 ≤ c.toNat && c.toNat ≤ 90) ||    -- A-Z
  (48 ≤ c.toNat && c.toNat ≤ 57) ||    -- 0-9
  c = '_'

/-- ASCII uppercase letter `A`-`Z`. -/
def isUpperAZ (c : Char) : Bool :=
  65 ≤ c.toNat && c.toNat ≤ 90

/-- Regex `\s`: JavaScript whitespace (ASCII whitespace, NBSP, Unicode space
separators, line separators and BOM). -/
def isSpaceJS (c : Char) : Bool :=
  c = ' ' || c = '\t' || c = '\n' || c = '\r' ||
  c.toNat = 0x0B || c.toNat = 0x0C ||
  c.toNat = 0xA0 || c.toNat = 0x1680 ||
  (0x2000 ≤ c.toNat && c.toNat ≤ 0x200A) ||
  c.toNat = 0x2028 || c.toNat = 0x2029 || c.toNat = 0x202F ||
  c.toNat = 0x205F || c.toNat = 0x3000 || c.toNat = 0xFEFF

/-- JavaScript regex line terminators, which the metacharacter `.` (as in
the pattern `_(.*?)_`) never matches. -/
def isLineTerm (c : Char) : Bool :=
  c = '\n' || c = '\r' || c.toNat = 0x2028 || c.toNat = 0x2029

/-- Characters strictly before the next `'_'` in the list, provided that
closing `'_'` is reachable without crossing a line terminator (`.` in a
JavaScript regex does not match line terminators); `none` otherwise. -/
def takeToUnderscore : JStr → Option JStr
  | [] => none
  | c :: cs =>
    if c = '_' then some []
    else if isLineTerm c then none
    else (takeToUnderscore cs).map (c :: ·)

/-- The capture of the first (leftmost, non-greedy) match of the JavaScript
regex `_(.*?)_` on the string: the characters between an underscore and the
nearest following underscore, at the leftmost position where such a pair
exists. -/
def firstCapture : JStr → Option JStr
  | [] => none
  | c :: cs =>
    if c = '_' then
      match takeToUnderscore cs with
      | some cap => some cap
      | none => firstCapture cs
    else firstCapture cs

/-- `String.prototype.startsWith`: does `l` start with the prefix pat? -/
def startsWithJS (pat l : JStr) : Bool :=
  match pat, l with
  | [], _ => true
  | _ :: _, [] => false
  | p :: ps, c :: cs => p = c && startsWithJS ps cs

/-- `String.prototype.includes`: does pat occur as a contiguous substring
of `l`? -/
def includesJS (l pat : JStr) : Bool :=
  match l with
  | [] => startsWithJS pat []
  | _ :: cs => startsWithJS pat l || includesJS cs pat

/-- The fixed known-browser list of `getBrowserFromScreenshotName`. -/
def browsers : List JStr :=
  ["chrome".data, "firefox".data, "ie".data, "edge".data, "opera".data]

/-- The sentinel returned when no browser can be inferred. -/
def unknownBrowser : JStr := "unknown_browser".data

/-- The `browsers.forEach` fallback loop: each list entry that occurs as a
substring of the file name overwrites the accumulator, so the last
containing entry wins; `none` if no entry is contained. -/
def fallbackBrowser (filename : JStr) : Option JStr :=
  browsers.foldl (fun acc b => if includesJS filename b then some b else acc) none

/-- `getBrowserFromScreenshotName` of `lib/wdio-errorshot-reporter.js`:
capture the part between the first two underscores (`_(.*?)_`); an empty
capture is falsy in JavaScript, so it is treated like a failed match.  If
the capture is truthy and the file name starts with `ERROR`, return the
capture; otherwise scan the known-browser list, last substring match
winning; if nothing was found return `"unknown_browser"` (every other
candidate is a non-empty string, hence truthy). -/
def getBrowserFromScreenshotName (filename : JStr) : JStr :=
  let browserName : Option JStr :=
    match firstCapture filename with
    | some cap => if cap.isEmpty then none else some cap
    | none => none
  match browserName with
  | some cap =>
    if startsWithJS "ERROR".data filename then cap
    else
      match fallbackBrowser filename with
      | some b => b
      | none => unknownBrowser
  | none =>
    match fallbackBrowser filename with
    | some b => b
    | none => unknownBrowser

/-! ## slugify (`lib/helpers/slugify.js`) -/

/-- ASCII model of `String.prototype.toLowerCase`: map `A`-`Z` to `a`-`z`,
leave every other character unchanged. -/
def toLowerJS (c : Char) : Char :=
  if isUpperAZ c then Char.ofNat (c.toNat + 32) else c

/-- Replace every maximal run of characters satisfying `p` by the single
character `d` (regex `replace(/p+/g, d)`): emit `d` at the last character
of each run (the lookahead `(cs.head?.map p).getD false` is true while the
run continues). -/
def collapseRuns (p : Char → Bool) (d : Char) : JStr → JStr
  | [] => []
  | c :: cs =>
    if p c then
      if (cs.head?.map p).getD false then collapseRuns p d cs
      else d :: collapseRuns p d cs
    else c :: collapseRuns p d cs

/-- `replace(dash-plus-at-end, '')` (regex `-+$`): remove every trailing
`'-'`. -/
def trimEndDash : JStr → JStr
  | [] => []
  | c :: cs =>
    match trimEndDash cs with
    | [] => if c = '-' then [] else [c]
    | r => c :: r

/-- `slugify` of `lib/helpers/slugify.js` at the default delimiter `'-'`
(every call site uses the default): lowercase, replace whitespace runs by
`'-'` (`/\s+/g`), remove all characters that are neither word characters
nor `'-'` (regex `[^\w-]+` removed), collapse dash runs (regex `--+`
replaced by the delimiter `'-'`, which for runs of length one is also the
identity, so every maximal dash run ends up as a single `'-'`), and trim
leading (regex `^-+`) and trailing (regex `-+$`) dashes. -/
def slugify (text : JStr) : JStr :=
  trimEndDash <|
    List.dropWhile (· = '-') <|
      collapseRuns (· = '-') '-' <|
        List.filter (fun c => isWordChar c || c = '-') <|
          collapseRuns isSpaceJS '-' <|
            text.map toLowerJS

/-! ## Template resolution (`replaceFilenameTemplatePlaceholders`) -/

/-- Split off the maximal leading run of word characters (`\w+`, greedily)
from the rest of the string. -/
def splitWordRun : JStr → JStr × JStr
  | [] => ([], [])
  | c :: cs =>
    if isWordChar c then
      let (run, rest) := splitWordRun cs
      (c :: run, rest)
    else ([], c :: cs)

theorem splitWordRun_snd_length (l : JStr) : (splitWordRun l).2.length ≤ l.length := by
  induction l with
  | nil => simp [splitWordRun]
  | cons c cs ih =>
    simp only [splitWordRun]
    by_cases h : isWordChar c
    · simp only [h, if_pos]
      exact Nat.le_trans ih (Nat.le_succ _)
    · simp [h]

/-- The placeholder map, as an association list (only own properties of the
JavaScript object literal, in source order). -/
def PlaceholderMap := List (JStr × JStr)

/-- `hasOwnProperty` + property access, combined: look the key up in the
association list. -/
def lookupPlaceholder (m : PlaceholderMap) (k : JStr) : Option JStr :=
  match m with
  | [] => none
  | (k', v) :: rest => if k = k' then some v else lookupPlaceholder rest k

/-- The `template.replace(/%\w+%/g, cb)` scan of
`replaceFilenameTemplatePlaceholders`: scan left to right; at a `'%'`
followed by a non-empty word run and a closing `'%'`, strip the two `'%'`
delimiters, and substitute the looked-up value when the key is an own
property of the placeholder map, keeping the matched text verbatim
otherwise; replaced values are not rescanned.  Everything else is copied
unchanged. -/
def replaceTokens (m : PlaceholderMap) : JStr → JStr
  | [] => []
  | c :: cs =>
    if c = '%' ∧ (splitWordRun cs).1 ≠ [] ∧ (splitWordRun cs).2.head? = some '%' then
      match lookupPlaceholder m (splitWordRun cs).1 with
      | some v => v ++ replaceTokens m (splitWordRun cs).2.tail
      | none => '%' :: ((splitWordRun cs).1 ++ '%' :: replaceTokens m (splitWordRun cs).2.tail)
    else c :: replaceTokens m cs
termination_by l => l.length
decreasing_by
  all_goals
    simp only [List.length_cons]
    have h1 := splitWordRun_snd_length cs
    have h2 := List.length_tail (splitWordRun cs).2
    omega

/-! ## Screenshot records and the placeholder lookup -/

/-- A validated screenshot record: the four required properties of the
`runner:screenshot` event payload.  `timeJSON` models the serialization
`screenshot.time.toJSON()` of the external `Date` object. -/
structure ScreenshotData where
  filename : JStr
  timeJSON : JStr
  parent : JStr
  title : JStr

/-- `getPlaceholderLookup`: the object literal built for a screenshot
record, with keys `capId`, `browser`, `browserName` (all three bound to
the inferred browser name), `timestamp` (the `toJSON` serialization of the
time with every `':'` replaced by `'-'`, regex `/:/g`), `parent` and
`title` (slugified). -/
def getPlaceholderLookup (sc : ScreenshotData) : PlaceholderMap :=
  let browserName := getBrowserFromScreenshotName sc.filename
  [("capId".data, browserName),
   ("browser".data, browserName),
   ("browserName".data, browserName),
   ("timestamp".data, sc.timeJSON.map (fun c => if c = ':' then '-' else c)),
   ("parent".data, slugify sc.parent),
   ("title".data, slugify sc.title)]

/-- `replaceFilenameTemplatePlaceholders`, with the reporter's
`filenameTemplate` passed explicitly. -/
def replaceFilenameTemplatePlaceholders (template : JStr) (sc : ScreenshotData) : JStr :=
  replaceTokens (getPlaceholderLookup sc) template

/-- `getScreenshotName`: the resolved template with the `.png` extension
appended. -/
def getScreenshotName (template : JStr) (sc : ScreenshotData) : JStr :=
  replaceFilenameTemplatePlaceholders template sc ++ ".png".data

/-! ## Configuration (`getOptionFilenameTemplate`) -/

/-- The `errorshotReporter` reporter options object: `template` is `none`
when the property is absent (`undefined`). -/
structure ErrorshotReporterOptions where
  template : Option JStr

/-- The `reporterOptions` object of `wdio.conf.js`. -/
structure ReporterOptions where
  errorshotReporter : Option ErrorshotReporterOptions

/-- The `config` object: a screenshot directory and optional reporter
options. -/
structure Config where
  screenshotPath : JStr
  reporterOptions : Option ReporterOptions

/-- The `defaultFilenameTemplate` getter. -/
def defaultFilenameTemplate : JStr := "%timestamp%_%capId%_%parent%-%title%".data

/-- `getOptionFilenameTemplate`: fall back to the default template when
`config.reporterOptions`, `config.reporterOptions.errorshotReporter` or
`...errorshotReporter.template` is falsy (absent, or the empty string). -/
def getOptionFilenameTemplate (config : Config) : JStr :=
  match config.reporterOptions with
  | none => defaultFilenameTemplate
  | some ro =>
    match ro.errorshotReporter with
    | none => defaultFilenameTemplate
    | some er =>
      match er.template with
      | none => defaultFilenameTemplate
      | some t => if t.isEmpty then defaultFilenameTemplate else t

/-! ## The screenshot event handler -/

/-- The raw `runner:screenshot` event payload: each of the four properties
may be absent (`hasOwnProperty` false). -/
structure ScreenshotEvent where
  filename : Option JStr
  time : Option JStr
  parent : Option JStr
  title : Option JStr

/-- `screenshotHasRequiredProperties`: all four own properties present. -/
def screenshotHasRequiredProperties (sc : ScreenshotEvent) : Bool :=
  sc.filename.isSome && sc.time.isSome && sc.parent.isSome && sc.title.isSome

/-- `buildScreenshotFilepath`: `path.join(config.screenshotPath, filename)`,
modelled as joining with the path separator. -/
def buildScreenshotFilepath (config : Config) (filename : JStr) : JStr :=
  config.screenshotPath ++ '/' :: filename

/-- `handleEventRunnerScreenshot`: returns the boolean result together with
the list of `fs.rename` invocations (old path, new path) the handler
issues.  A record missing a required property is skipped (`false`, no
rename); otherwise exactly one asynchronous rename is requested and `true`
is returned, independently of the rename's own outcome. -/
def handleEventRunnerScreenshot (config : Config) (template : JStr)
    (sc : ScreenshotEvent) : Bool × List (JStr × JStr) :=
  if screenshotHasRequiredProperties sc then
    let data : ScreenshotData :=
      { filename := sc.filename.getD []
        timeJSON := sc.time.getD []
        parent := sc.parent.getD []
        title := sc.title.getD [] }
    let filepathOld := buildScreenshotFilepath config data.filename
    let filepathNew := buildScreenshotFilepath config (getScreenshotName template data)
    (true, [(filepathOld, filepathNew)])
  else
    (false, [])

/-! ## Helper lemmas: the fallback loop -/

theorem foldl_lastMatch {α : Type} (q : α → Bool) (bs : List α) (acc : Option α) :
    bs.foldl (fun a b => if q b then some b else a) acc =
      ((bs.filter q).getLast?).or acc := by
  induction bs generalizing acc with
  | nil => simp
  | cons b bs ih =>
    simp only [List.foldl_cons, List.filter_cons]
    by_cases hq : q b
    · simp only [hq, if_pos]
      rw [ih]
      cases hx : (bs.filter q).getLast? with
      | none =>
        rw [List.getLast?_eq_none_iff] at hx
        simp [hx]
      | some v =>
        have hne : bs.filter q ≠ [] := by
          intro hnil
          rw [hnil] at hx
          simp at hx
        cases hfe : bs.filter q with
        | nil => exact absurd hfe hne
        | cons y ys =>
          rw [hfe] at hx
          simp [List.getLast?_cons_cons, hx]
    · simp only [hq, if_neg, Bool.false_eq_true, not_false_iff, ite_false]
      exact ih acc

theorem fallbackBrowser_eq (filename : JStr) :
    fallbackBrowser filename =
      (browsers.filter (fun b => includesJS filename b)).getLast? := by
  unfold fallbackBrowser
  rw [foldl_lastMatch]
  exact Option.or_none

theorem fallbackBrowser_mem {filename b : JStr}
    (h : fallbackBrowser filename = some b) :
    b ∈ browsers ∧ includesJS filename b = true := by
  rw [fallbackBrowser_eq] at h
  have hb := List.mem_of_getLast?_eq_some h
  rw [List.mem_filter] at hb
  exact hb

theorem browsers_ne_nil {b : JStr} (h : b ∈ browsers) : b ≠ [] := by
  simp only [browsers, List.mem_cons, List.not_mem_nil, or_false] at h
  rcases h with rfl | rfl | rfl | rfl | rfl <;> decide

theorem getBrowser_regex_path {filename cap : JStr}
    (hcap : firstCapture filename = some cap) (hne : cap ≠ [])
    (hpre : startsWithJS "ERROR".data filename = true) :
    getBrowserFromScreenshotName filename = cap := by
  have hie : cap.isEmpty = false := by
    cases cap with
    | nil => exact absurd rfl hne
    | cons c cs => rfl
  unfold getBrowserFromScreenshotName
  rw [hcap]
  simp [hie, hpre]

theorem getBrowser_fallback_path {filename : JStr}
    (h : firstCapture filename = none ∨ firstCapture filename = some [] ∨
         startsWithJS "ERROR".data filename = false) :
    getBrowserFromScreenshotName filename =
      match fallbackBrowser filename with
      | some b => b
      | none => unknownBrowser := by
  unfold getBrowserFromScreenshotName
  rcases h with hcap | hcap | hpre
  · rw [hcap]
  · rw [hcap]
    rfl
  · cases hc : firstCapture filename with
    | none => rfl
    | some cap =>
      cases cap with
      | nil => rfl
      | cons c cs => simp [hpre]

/-! ## C1: regex path of browser inference -/

/-- C1.  For every file name that starts with the literal prefix `ERROR`
and in which the regex between the first and second underscore yields a
non-empty capture, browser inference returns exactly that capture. -/
theorem c1_browser_regex_path (filename cap : JStr)
    (hcap : firstCapture filename = some cap) (hne : cap ≠ [])
    (hpre : startsWithJS "ERROR".data filename = true) :
    getBrowserFromScreenshotName filename = cap :=
  getBrowser_regex_path hcap hne hpre

/-- Witness for C1 at the spec's example
`inferBrowser("ERROR_chrome_12345_67890.png") = "chrome"`. -/
theorem c1_browser_regex_path_witness :
    firstCapture "ERROR_chrome_12345_67890.png".data = some "chrome".data ∧
    getBrowserFromScreenshotName "ERROR_chrome_12345_67890.png".data = "chrome".data :=
  ⟨by decide,
   c1_browser_regex_path _ _ (by decide) (by decide) (by decide)⟩

/-! ## C2: empty capture -/

/-- Counterexample to C2 as stated: `"ERROR__chrome_12345.png"` has an
empty inter-underscore capture, yet browser inference returns `"chrome"`
(found by the substring fallback), not `"unknown_browser"`. -/
theorem c2_counterexample :
    firstCapture "ERROR__chrome_12345.png".data = some [] ∧
    getBrowserFromScreenshotName "ERROR__chrome_12345.png".data = "chrome".data ∧
    "chrome".data ≠ unknownBrowser := by
  refine ⟨by decide, by decide, by decide⟩

/-- C2 (amended).  For a file name whose inter-underscore capture is
empty, browser inference never returns the empty string: it falls back to
the substring search, and returns `"unknown_browser"` when no name of the
known-browser list occurs in the file name (in particular on
`ERROR__12345_67890.png`). -/
theorem c2_empty_capture_amended (filename : JStr)
    (hcap : firstCapture filename = some []) :
    getBrowserFromScreenshotName filename ≠ [] ∧
    ((∀ b ∈ browsers, includesJS filename b = false) →
      getBrowserFromScreenshotName filename = unknownBrowser) := by
  rw [getBrowser_fallback_path (Or.inr (Or.inl hcap))]
  cases hf : fallbackBrowser filename with
  | none => exact ⟨by decide, fun _ => rfl⟩
  | some b =>
    obtain ⟨hmem, hinc⟩ := fallbackBrowser_mem hf
    refine ⟨browsers_ne_nil hmem, fun hall => ?_⟩
    rw [hall b hmem] at hinc
    cases hinc

/-- Witness for C2 (amended) at the spec's example
`ERROR__12345_67890.png`, which contains no known-browser name. -/
theorem c2_empty_capture_amended_witness :
    getBrowserFromScreenshotName "ERROR__12345_67890.png".data = unknownBrowser :=
  (c2_empty_capture_amended "ERROR__12345_67890.png".data (by decide)).2 (by decide)

/-! ## C3: substring-search fallback -/

/-- C3.  For every file name that does not start with `ERROR` or has no
inter-underscore capture, browser inference is the substring search over
the fixed list: the list entry contained in the file name that occurs
latest in the list wins, and if none is contained the result is
`"unknown_browser"`. -/
theorem c3_fallback_last_match (filename : JStr)
    (h : startsWithJS "ERROR".data filename = false ∨ firstCapture filename = none) :
    getBrowserFromScreenshotName filename =
      match (browsers.filter (fun b => includesJS filename b)).getLast? with
      | some b => b
      | none => unknownBrowser := by
  rw [← fallbackBrowser_eq]
  rcases h with hpre | hcap
  · exact getBrowser_fallback_path (Or.inr (Or.inr hpre))
  · exact getBrowser_fallback_path (Or.inl hcap)

/-- Witness for C3: `"chrome-and-opera.png"` does not start with `ERROR`
and contains both `chrome` and `opera`; the later list entry `opera`
wins. -/
theorem c3_fallback_last_match_witness :
    getBrowserFromScreenshotName "chrome-and-opera.png".data = "opera".data :=
  (c3_fallback_last_match "chrome-and-opera.png".data (Or.inl (by decide))).trans
    (by decide)

/-! ## C8: case of the result -/

/-- Counterexample to C8 as stated: on
`"ERROR_Chrome_12345_67890.png"` browser inference returns the capture
`"Chrome"` verbatim, which contains the uppercase letter `C`. -/
theorem c8_counterexample :
    getBrowserFromScreenshotName "ERROR_Chrome_12345_67890.png".data = "Chrome".data ∧
    (getBrowserFromScreenshotName "ERROR_Chrome_12345_67890.png".data).any isUpperAZ = true := by
  exact ⟨by decide, by decide⟩

/-- C8 (amended).  Browser inference returns either the inter-underscore
capture verbatim (preserving its case), or one of the fixed lowercase
strings `chrome`, `firefox`, `ie`, `edge`, `opera`, `unknown_browser`;
hence the result can contain an uppercase letter only when the capture
does. -/
theorem c8_result_shape (filename : JStr) :
    firstCapture filename = some (getBrowserFromScreenshotName filename) ∨
    getBrowserFromScreenshotName filename ∈
      ["chrome".data, "firefox".data, "ie".data, "edge".data, "opera".data,
       unknownBrowser] := by
  have hfb : getBrowserFromScreenshotName filename =
      (match fallbackBrowser filename with
        | some b => b
        | none => unknownBrowser) →
      getBrowserFromScreenshotName filename ∈
        ["chrome".data, "firefox".data, "ie".data, "edge".data, "opera".data,
         unknownBrowser] := by
    intro heq
    rw [heq]
    cases hf : fallbackBrowser filename with
    | none => simp
    | some b =>
      have hmem := (fallbackBrowser_mem hf).1
      simp only [browsers, List.mem_cons, List.not_mem_nil, or_false] at hmem
      simp only [List.mem_cons, List.not_mem_nil, or_false]
      tauto
  cases hc : firstCapture filename with
  | none => exact Or.inr (hfb (getBrowser_fallback_path (Or.inl hc)))
  | some cap =>
    cases cap with
    | nil => exact Or.inr (hfb (getBrowser_fallback_path (Or.inr (Or.inl hc))))
    | cons c cs =>
      by_cases hpre : startsWithJS "ERROR".data filename = true
      · rw [getBrowser_regex_path hc (by simp) hpre]
        exact Or.inl rfl
      · rw [Bool.not_eq_true] at hpre
        exact Or.inr (hfb (getBrowser_fallback_path (Or.inr (Or.inr hpre))))

/-! ## C5: default template fallback -/

/-- C5.  For every configuration in which no template string is supplied
(`reporterOptions` missing, `errorshotReporter` missing, or `template`
missing or empty), the template used is the fixed default
`%timestamp%_%capId%_%parent%-%title%`. -/
theorem c5_default_template (config : Config)
    (h : config.reporterOptions = none ∨
         (∃ ro, config.reporterOptions = some ro ∧ ro.errorshotReporter = none) ∨
         (∃ ro er, config.reporterOptions = some ro ∧ ro.errorshotReporter = some er ∧
            (er.template = none ∨ er.template = some []))) :
    getOptionFilenameTemplate config = defaultFilenameTemplate := by
  unfold getOptionFilenameTemplate
  rcases h with h1 | ⟨ro, h1, h2⟩ | ⟨ro, er, h1, h2, h3⟩
  · rw [h1]
  · simp [h1, h2]
  · rcases h3 with h3 | h3 <;> simp [h1, h2, h3]

/-- Witness for C5 on a configuration with no `reporterOptions` at all. -/
theorem c5_default_template_witness :
    getOptionFilenameTemplate ⟨"errorShots".data, none⟩ = defaultFilenameTemplate :=
  c5_default_template ⟨"errorShots".data, none⟩ (Or.inl rfl)

/-! ## C7: the screenshot event handler -/

/-- C7.  The handler returns `false` and requests no rename when the
record is missing any of the four required fields; for a complete record
it requests exactly one rename and returns `true` (the rename outcome does
not influence the return value, which the model reflects by listing only
the requested rename operations). -/
theorem c7_handler_contract (config : Config) (template : JStr)
    (sc : ScreenshotEvent) :
    (screenshotHasRequiredProperties sc = false →
       handleEventRunnerScreenshot config template sc = (false, [])) ∧
    (screenshotHasRequiredProperties sc = true →
       (handleEventRunnerScreenshot config template sc).1 = true ∧
       (handleEventRunnerScreenshot config template sc).2.length = 1) := by
  unfold handleEventRunnerScreenshot
  constructor
  · intro h
    simp [h]
  · intro h
    simp [h]

/-- Witness for C7: a record with only a `filename` is rejected without a
rename request; a complete record yields `true` and one rename request. -/
theorem c7_handler_contract_witness :
    handleEventRunnerScreenshot ⟨"errorShots".data, none⟩ defaultFilenameTemplate
        ⟨some "ERROR_corrupted_screenshot_data.png".data, none, none, none⟩ =
      (false, []) ∧
    (handleEventRunnerScreenshot ⟨"errorShots".data, none⟩ defaultFilenameTemplate
        ⟨some "ERROR_chrome_12345_1337.png".data, some "T".data,
         some "parent text here".data, some "title text here".data⟩).1 = true ∧
    (handleEventRunnerScreenshot ⟨"errorShots".data, none⟩ defaultFilenameTemplate
        ⟨some "ERROR_chrome_12345_1337.png".data, some "T".data,
         some "parent text here".data, some "title text here".data⟩).2.length = 1 := by
  refine ⟨(c7_handler_contract _ _ _).1 (by decide), ?_⟩
  exact (c7_handler_contract ⟨"errorShots".data, none⟩ defaultFilenameTemplate
    ⟨some "ERROR_chrome_12345_1337.png".data, some "T".data,
     some "parent text here".data, some "title text here".data⟩).2 (by decide)

/-! ## C10: the placeholder map -/

/-- C10.  For every valid screenshot record the `capId`, `browser` and
`browserName` entries of the placeholder map are equal, and the
`timestamp` entry is the record's `toJSON`-serialized time with every
`':'` replaced by `'-'`, hence it never contains a colon. -/
theorem c10_placeholder_lookup (sc : ScreenshotData) :
    lookupPlaceholder (getPlaceholderLookup sc) "capId".data
      = lookupPlaceholder (getPlaceholderLookup sc) "browser".data ∧
    lookupPlaceholder (getPlaceholderLookup sc) "browser".data
      = lookupPlaceholder (getPlaceholderLookup sc) "browserName".data ∧
    lookupPlaceholder (getPlaceholderLookup sc) "timestamp".data
      = some (sc.timeJSON.map (fun c => if c = ':' then '-' else c)) ∧
    ∀ v, lookupPlaceholder (getPlaceholderLookup sc) "timestamp".data = some v →
      ':' ∉ v := by
  refine ⟨rfl, rfl, rfl, fun v hv => ?_⟩
  have hv' : v = sc.timeJSON.map (fun c => if c = ':' then '-' else c) := by
    have : some (sc.timeJSON.map (fun c => if c = ':' then '-' else c)) = some v := by
      rw [← hv]
      rfl
    exact (Option.some.injEq _ _ ▸ this).symm
  subst hv'
  intro hmem
  rw [List.mem_map] at hmem
  obtain ⟨a, _, ha⟩ := hmem
  by_cases hc : a = ':'
  · rw [hc] at ha
    simp at ha
  · rw [if_neg hc] at ha
    exact hc ha

/-- Witness for C10's colon-freeness at a concrete record. -/
theorem c10_placeholder_lookup_witness :
    ':' ∉ ("2018-01-01T10:00:00.000Z".data.map
      (fun c => if c = ':' then '-' else c)) :=
  (c10_placeholder_lookup
    ⟨"ERROR_chrome_12345_67890.png".data, "2018-01-01T10:00:00.000Z".data,
     "parent".data, "title".data⟩).2.2.2 _ (by rfl)

/-! ## Helper lemmas: the token scanner -/

theorem splitWordRun_eq (l : JStr) :
    l = (splitWordRun l).1 ++ (splitWordRun l).2 ∧
      ∀ c ∈ (splitWordRun l).1, isWordChar c = true := by
  induction l with
  | nil => simp [splitWordRun]
  | cons c cs ih =>
    by_cases h : isWordChar c
    · simp only [splitWordRun, h, if_pos]
      refine ⟨?_, ?_⟩
      · conv_lhs => rw [ih.1]
        rw [List.cons_append]
      · intro x hx
        rcases List.mem_cons.mp hx with rfl | hx
        · exact h
        · exact ih.2 x hx
    · simp [splitWordRun, h]

theorem splitWordRun_word_append {run : JStr} (suf : JStr)
    (hw : ∀ c ∈ run, isWordChar c = true) :
    splitWordRun (run ++ '%' :: suf) = (run, '%' :: suf) := by
  induction run with
  | nil =>
    have : isWordChar '%' = false := by decide
    simp [splitWordRun, this]
  | cons r rs ih =>
    have hr : isWordChar r = true := hw r (List.mem_cons_self r rs)
    have hrs : ∀ c ∈ rs, isWordChar c = true := fun c hc => hw c (List.mem_cons_of_mem r hc)
    simp [splitWordRun, hr, ih hrs]

/-- A string has a substring matching the token pattern: a percent sign,
one or more word characters, a percent sign. -/
def hasTemplateToken : JStr → Bool
  | [] => false
  | c :: cs =>
    (c = '%' && !(splitWordRun cs).1.isEmpty &&
      ((splitWordRun cs).2.head? == some '%')) || hasTemplateToken cs

theorem hasTemplateToken_of_sub (pre run suf : JStr) (hne : run ≠ [])
    (hw : ∀ c ∈ run, isWordChar c = true) :
    hasTemplateToken (pre ++ '%' :: (run ++ '%' :: suf)) = true := by
  induction pre with
  | nil =>
    simp only [List.nil_append, hasTemplateToken, splitWordRun_word_append suf hw]
    have hie : run.isEmpty = false := by
      cases run with
      | nil => exact absurd rfl hne
      | cons a as => rfl
    simp [hie]
  | cons p ps ih =>
    simp [List.cons_append, hasTemplateToken, List.append_eq, ih]

theorem no_token_decomposition {l : JStr} (hb : hasTemplateToken l = false) :
    ¬ ∃ pre run suf, l = pre ++ '%' :: (run ++ '%' :: suf) ∧ run ≠ [] ∧
        ∀ c ∈ run, isWordChar c = true := by
  rintro ⟨pre, run, suf, rfl, hne, hw⟩
  rw [hasTemplateToken_of_sub pre run suf hne hw] at hb
  cases hb

theorem replaceTokens_eq_self (m : PlaceholderMap) :
    ∀ (n : Nat) (l : JStr), l.length ≤ n →
      (¬ ∃ pre run suf, l = pre ++ '%' :: (run ++ '%' :: suf) ∧ run ≠ [] ∧
          ∀ c ∈ run, isWordChar c = true) →
      replaceTokens m l = l := by
  intro n
  induction n with
  | zero =>
    intro l hl _
    have : l = [] := List.eq_nil_of_length_eq_zero (Nat.le_zero.mp hl)
    rw [this]
    exact replaceTokens.eq_1 m
  | succ n ih =>
    intro l hl htok
    cases l with
    | nil => exact replaceTokens.eq_1 m
    | cons c cs =>
      rw [replaceTokens.eq_def]
      by_cases hcond : c = '%' ∧ (splitWordRun cs).1 ≠ [] ∧
          (splitWordRun cs).2.head? = some '%'
      · exfalso
        obtain ⟨hc, hne, hhd⟩ := hcond
        subst hc
        apply htok
        have htl : (splitWordRun cs).2 = '%' :: (splitWordRun cs).2.tail := by
          cases hx : (splitWordRun cs).2 with
          | nil => rw [hx] at hhd; cases hhd
          | cons a as =>
            rw [hx] at hhd
            have ha : a = '%' := by
              simpa using hhd
            rw [ha]
            rfl
        refine ⟨[], (splitWordRun cs).1, (splitWordRun cs).2.tail, ?_, hne,
          (splitWordRun_eq cs).2⟩
        simp only [List.nil_append, List.cons.injEq, true_and]
        conv_lhs => rw [(splitWordRun_eq cs).1, htl]
      · simp only [if_neg hcond]
        have hcs : replaceTokens m cs = cs := by
          refine ih cs ?_ ?_
          · simp only [List.length_cons] at hl
            omega
          · rintro ⟨pre, run, suf, heq, hne, hw⟩
            exact htok ⟨c :: pre, run, suf, by rw [heq]; rfl, hne, hw⟩
        rw [hcs]

/-! ## C9: identity on already-resolved strings -/

/-- C9.  Placeholder substitution is the identity on already-resolved
strings: for every template string containing no substring matching the
token pattern (percent, word characters, percent) and every record, the
substitution step returns the string unchanged. -/
theorem c9_identity_on_resolved (sc : ScreenshotData) (l : JStr)
    (h : ¬ ∃ pre run suf, l = pre ++ '%' :: (run ++ '%' :: suf) ∧ run ≠ [] ∧
          ∀ c ∈ run, isWordChar c = true) :
    replaceFilenameTemplatePlaceholders l sc = l :=
  replaceTokens_eq_self (getPlaceholderLookup sc) l.length l (Nat.le_refl _) h

/-- Witness for C9 on a fully resolved file name. -/
theorem c9_identity_on_resolved_witness :
    replaceFilenameTemplatePlaceholders "chrome_parent-title.png".data
        ⟨"ERROR_chrome_12345_67890.png".data, "T".data, "parent".data, "title".data⟩ =
      "chrome_parent-title.png".data :=
  c9_identity_on_resolved _ _ (no_token_decomposition (by decide))

/-! ## Step lemmas for the scanner, and the placeholder lookups -/

theorem replaceTokens_token_some {m : PlaceholderMap} {k v : JStr} (suf : JStr)
    (hw : ∀ c ∈ k, isWordChar c = true) (hne : k ≠ [])
    (hlk : lookupPlaceholder m k = some v) :
    replaceTokens m ('%' :: (k ++ '%' :: suf)) = v ++ replaceTokens m suf := by
  have hs := splitWordRun_word_append suf hw
  rw [replaceTokens.eq_2, hs]
  rw [if_pos ⟨rfl, hne, rfl⟩]
  have hlk' : lookupPlaceholder m ((k, '%' :: suf).1) = some v := hlk
  rw [hlk']
  rfl

theorem replaceTokens_token_none {m : PlaceholderMap} {k : JStr} (suf : JStr)
    (hw : ∀ c ∈ k, isWordChar c = true) (hne : k ≠ [])
    (hlk : lookupPlaceholder m k = none) :
    replaceTokens m ('%' :: (k ++ '%' :: suf)) =
      '%' :: (k ++ '%' :: replaceTokens m suf) := by
  have hs := splitWordRun_word_append suf hw
  rw [replaceTokens.eq_2, hs]
  rw [if_pos ⟨rfl, hne, rfl⟩]
  have hlk' : lookupPlaceholder m ((k, '%' :: suf).1) = none := hlk
  rw [hlk']
  rfl

theorem replaceTokens_literal {m : PlaceholderMap} {c : Char} (cs : JStr)
    (hc : ¬ c = '%') :
    replaceTokens m (c :: cs) = c :: replaceTokens m cs := by
  rw [replaceTokens.eq_2, if_neg (fun h => hc h.1)]

theorem lookupPlaceholder_capId (sc : ScreenshotData) :
    lookupPlaceholder (getPlaceholderLookup sc) "capId".data =
      some (getBrowserFromScreenshotName sc.filename) := rfl

theorem lookupPlaceholder_parent (sc : ScreenshotData) :
    lookupPlaceholder (getPlaceholderLookup sc) "parent".data =
      some (slugify sc.parent) := rfl

theorem lookupPlaceholder_title (sc : ScreenshotData) :
    lookupPlaceholder (getPlaceholderLookup sc) "title".data =
      some (slugify sc.title) := rfl

theorem lookupPlaceholder_notexisting (sc : ScreenshotData) :
    lookupPlaceholder (getPlaceholderLookup sc) "notexisting".data = none := rfl

theorem resolveTemplate_c4 (sc : ScreenshotData) :
    replaceFilenameTemplatePlaceholders "%capId%_%notexisting%_%parent%-%title%".data sc =
      getBrowserFromScreenshotName sc.filename ++ "_%notexisting%_".data ++
        slugify sc.parent ++ "-".data ++ slugify sc.title := by
  unfold replaceFilenameTemplatePlaceholders
  have e1 : "%capId%_%notexisting%_%parent%-%title%".data =
      '%' :: ("capId".data ++ '%' :: "_%notexisting%_%parent%-%title%".data) := rfl
  rw [e1, replaceTokens_token_some _ (by decide) (by decide) (lookupPlaceholder_capId sc)]
  have e2 : "_%notexisting%_%parent%-%title%".data =
      '_' :: "%notexisting%_%parent%-%title%".data := rfl
  rw [e2, replaceTokens_literal _ (by decide)]
  have e3 : "%notexisting%_%parent%-%title%".data =
      '%' :: ("notexisting".data ++ '%' :: "_%parent%-%title%".data) := rfl
  rw [e3, replaceTokens_token_none _ (by decide) (by decide)
        (lookupPlaceholder_notexisting sc)]
  have e4 : "_%parent%-%title%".data = '_' :: "%parent%-%title%".data := rfl
  rw [e4, replaceTokens_literal _ (by decide)]
  have e5 : "%parent%-%title%".data =
      '%' :: ("parent".data ++ '%' :: "-%title%".data) := rfl
  rw [e5, replaceTokens_token_some _ (by decide) (by decide)
        (lookupPlaceholder_parent sc)]
  have e6 : "-%title%".data = '-' :: "%title%".data := rfl
  rw [e6, replaceTokens_literal _ (by decide)]
  have e7 : "%title%".data = '%' :: ("title".data ++ '%' :: ([] : JStr)) := rfl
  rw [e7, replaceTokens_token_some _ (by decide) (by decide)
        (lookupPlaceholder_title sc)]
  rw [replaceTokens.eq_1]
  simp only [List.append_nil, List.append_assoc]
  rfl

/-! ## The token decomposition of a template -/

/-- A segment of a template, as carved up by the global token-pattern
scan: a literal character lying outside every match, or the key of a
maximal token match (the text between the two `%` delimiters). -/
inductive TemplateSeg where
  | lit : Char → TemplateSeg
  | tok : JStr → TemplateSeg
  deriving DecidableEq

/-- The decomposition of a template along the maximal matches of the
token pattern (percent, one-or-more word characters, percent).  It
depends only on the template, not on any placeholder map: the same
left-to-right scan as the replacement, recording the token keys instead
of substituting. -/
def tokenSplit : JStr → List TemplateSeg
  | [] => []
  | c :: cs =>
    if c = '%' ∧ (splitWordRun cs).1 ≠ [] ∧ (splitWordRun cs).2.head? = some '%' then
      TemplateSeg.tok (splitWordRun cs).1 :: tokenSplit (splitWordRun cs).2.tail
    else TemplateSeg.lit c :: tokenSplit cs
termination_by l => l.length
decreasing_by
  all_goals
    simp only [List.length_cons]
    have h1 := splitWordRun_snd_length cs
    have h2 := List.length_tail (splitWordRun cs).2
    omega

/-- The literal template text a segment stands for. -/
def flattenSeg : TemplateSeg → JStr
  | TemplateSeg.lit c => [c]
  | TemplateSeg.tok k => '%' :: (k ++ ['%'])

/-- Concatenation of the literal texts of all segments. -/
def flattenAll : List TemplateSeg → JStr
  | [] => []
  | s :: ss => flattenSeg s ++ flattenAll ss

/-- What a segment becomes in the output: a literal character is copied
unchanged; a token is replaced by its value when its key is an own
property of the placeholder map, and kept verbatim with its `%`
delimiters otherwise. -/
def renderSeg (m : PlaceholderMap) : TemplateSeg → JStr
  | TemplateSeg.lit c => [c]
  | TemplateSeg.tok k =>
    match lookupPlaceholder m k with
    | some v => v
    | none => '%' :: (k ++ ['%'])

/-- Concatenation of the rendered segments. -/
def renderAll (m : PlaceholderMap) : List TemplateSeg → JStr
  | [] => []
  | s :: ss => renderSeg m s ++ renderAll m ss

theorem head?_eq_cons {l : JStr} {x : Char} (h : l.head? = some x) :
    l = x :: l.tail := by
  cases l with
  | nil => cases h
  | cons a as =>
    have hax : a = x := Option.some.inj h
    subst hax
    rfl

theorem splitWordRun_tail_length (cs : JStr) :
    (splitWordRun cs).2.tail.length ≤ cs.length := by
  have h1 := splitWordRun_snd_length cs
  have h2 := List.length_tail (splitWordRun cs).2
  omega

theorem flattenAll_tokenSplit :
    ∀ (n : Nat) (t : JStr), t.length ≤ n → flattenAll (tokenSplit t) = t := by
  intro n
  induction n with
  | zero =>
    intro t ht
    have ht0 : t = [] := List.eq_nil_of_length_eq_zero (Nat.le_zero.mp ht)
    subst ht0
    rw [tokenSplit.eq_1]
    rfl
  | succ n ih =>
    intro t ht
    cases t with
    | nil =>
      rw [tokenSplit.eq_1]
      rfl
    | cons c cs =>
      rw [tokenSplit.eq_2]
      by_cases hcond : c = '%' ∧ (splitWordRun cs).1 ≠ [] ∧
          (splitWordRun cs).2.head? = some '%'
      · rw [if_pos hcond]
        obtain ⟨hc, hne, hhd⟩ := hcond
        subst hc
        have hlen : (splitWordRun cs).2.tail.length ≤ n := by
          have := splitWordRun_tail_length cs
          simp only [List.length_cons] at ht
          omega
        simp only [flattenAll, flattenSeg]
        rw [ih _ hlen]
        conv_rhs => rw [(splitWordRun_eq cs).1, head?_eq_cons hhd]
        simp
      · rw [if_neg hcond]
        simp only [flattenAll, flattenSeg]
        rw [ih cs (by simp only [List.length_cons] at ht; omega)]
        rfl

theorem tokenSplit_tok_shape :
    ∀ (n : Nat) (t : JStr), t.length ≤ n → ∀ k : JStr,
      TemplateSeg.tok k ∈ tokenSplit t →
      k ≠ [] ∧ ∀ c ∈ k, isWordChar c = true := by
  intro n
  induction n with
  | zero =>
    intro t ht k hk
    have ht0 : t = [] := List.eq_nil_of_length_eq_zero (Nat.le_zero.mp ht)
    subst ht0
    rw [tokenSplit.eq_1] at hk
    cases hk
  | succ n ih =>
    intro t ht k hk
    cases t with
    | nil =>
      rw [tokenSplit.eq_1] at hk
      cases hk
    | cons c cs =>
      rw [tokenSplit.eq_2] at hk
      by_cases hcond : c = '%' ∧ (splitWordRun cs).1 ≠ [] ∧
          (splitWordRun cs).2.head? = some '%'
      · rw [if_pos hcond] at hk
        have hlen : (splitWordRun cs).2.tail.length ≤ n := by
          have := splitWordRun_tail_length cs
          simp only [List.length_cons] at ht
          omega
        rcases List.mem_cons.mp hk with heq | hmem
        · injection heq with hkr
          subst hkr
          exact ⟨hcond.2.1, (splitWordRun_eq cs).2⟩
        · exact ih _ hlen k hmem
      · rw [if_neg hcond] at hk
        rcases List.mem_cons.mp hk with heq | hmem
        · exact TemplateSeg.noConfusion heq
        · exact ih cs (by simp only [List.length_cons] at ht; omega) k hmem

theorem replaceTokens_eq_renderAll (m : PlaceholderMap) :
    ∀ (n : Nat) (t : JStr), t.length ≤ n →
      replaceTokens m t = renderAll m (tokenSplit t) := by
  intro n
  induction n with
  | zero =>
    intro t ht
    have ht0 : t = [] := List.eq_nil_of_length_eq_zero (Nat.le_zero.mp ht)
    subst ht0
    rw [replaceTokens.eq_1, tokenSplit.eq_1]
    rfl
  | succ n ih =>
    intro t ht
    cases t with
    | nil =>
      rw [replaceTokens.eq_1, tokenSplit.eq_1]
      rfl
    | cons c cs =>
      rw [replaceTokens.eq_2, tokenSplit.eq_2]
      by_cases hcond : c = '%' ∧ (splitWordRun cs).1 ≠ [] ∧
          (splitWordRun cs).2.head? = some '%'
      · rw [if_pos hcond, if_pos hcond]
        have hlen : (splitWordRun cs).2.tail.length ≤ n := by
          have := splitWordRun_tail_length cs
          simp only [List.length_cons] at ht
          omega
        simp only [renderAll, renderSeg]
        cases hlk : lookupPlaceholder m (splitWordRun cs).1 with
        | some v =>
          rw [ih _ hlen]
        | none =>
          rw [ih _ hlen]
          simp [List.append_assoc]
      · rw [if_neg hcond, if_neg hcond]
        simp only [renderAll, renderSeg]
        rw [ih cs (by simp only [List.length_cons] at ht; omega)]
        rfl

theorem renderAll_append (m : PlaceholderMap) (l1 l2 : List TemplateSeg) :
    renderAll m (l1 ++ l2) = renderAll m l1 ++ renderAll m l2 := by
  induction l1 with
  | nil => rfl
  | cons s ss ih => simp [renderAll, ih, List.append_assoc]

theorem tokenSplit_token {k : JStr} (suf : JStr)
    (hw : ∀ c ∈ k, isWordChar c = true) (hne : k ≠ []) :
    tokenSplit ('%' :: (k ++ '%' :: suf)) =
      TemplateSeg.tok k :: tokenSplit suf := by
  have hs := splitWordRun_word_append suf hw
  rw [tokenSplit.eq_2, hs]
  rw [if_pos ⟨rfl, hne, rfl⟩]
  rfl

theorem tokenSplit_literal {c : Char} (cs : JStr) (hc : ¬ c = '%') :
    tokenSplit (c :: cs) = TemplateSeg.lit c :: tokenSplit cs := by
  rw [tokenSplit.eq_2, if_neg (fun h => hc h.1)]

theorem tokenSplit_c4_template :
    tokenSplit "%capId%_%notexisting%_%parent%-%title%".data =
      [TemplateSeg.tok "capId".data, TemplateSeg.lit '_',
       TemplateSeg.tok "notexisting".data, TemplateSeg.lit '_',
       TemplateSeg.tok "parent".data, TemplateSeg.lit '-',
       TemplateSeg.tok "title".data] := by
  have e1 : "%capId%_%notexisting%_%parent%-%title%".data =
      '%' :: ("capId".data ++ '%' :: "_%notexisting%_%parent%-%title%".data) := rfl
  rw [e1, tokenSplit_token _ (by decide) (by decide)]
  have e2 : "_%notexisting%_%parent%-%title%".data =
      '_' :: "%notexisting%_%parent%-%title%".data := rfl
  rw [e2, tokenSplit_literal _ (by decide)]
  have e3 : "%notexisting%_%parent%-%title%".data =
      '%' :: ("notexisting".data ++ '%' :: "_%parent%-%title%".data) := rfl
  rw [e3, tokenSplit_token _ (by decide) (by decide)]
  have e4 : "_%parent%-%title%".data = '_' :: "%parent%-%title%".data := rfl
  rw [e4, tokenSplit_literal _ (by decide)]
  have e5 : "%parent%-%title%".data =
      '%' :: ("parent".data ++ '%' :: "-%title%".data) := rfl
  rw [e5, tokenSplit_token _ (by decide) (by decide)]
  have e6 : "-%title%".data = '-' :: "%title%".data := rfl
  rw [e6, tokenSplit_literal _ (by decide)]
  have e7 : "%title%".data = '%' :: ("title".data ++ '%' :: ([] : JStr)) := rfl
  rw [e7, tokenSplit_token _ (by decide) (by decide)]
  rw [tokenSplit.eq_1]

/-! ## C4: unknown placeholders pass through verbatim -/

/-- C4.  Template resolution replaces only token regions matching the
pattern percent, word characters, percent: every template decomposes
along the maximal matches of that pattern into literal characters and
token keys (`flattenAll (tokenSplit t) = t`, so no literal text is
invented or dropped, and every recorded key is a non-empty word-character
run); for every record and every template the output is exactly this
decomposition with each present-key token replaced by its value and each
absent-key token kept untouched verbatim including its `%` delimiters
(`renderAll`); consequently an absent-key token reappears verbatim as a
contiguous substring of the output.  Resolution is a total function, so
no error is raised.  On the spec's example template and record the result
is `chrome_%notexisting%_parent-title`. -/
theorem c4_unknown_placeholder_passthrough :
    (∀ t : JStr, flattenAll (tokenSplit t) = t) ∧
    (∀ (t k : JStr), TemplateSeg.tok k ∈ tokenSplit t →
       k ≠ [] ∧ ∀ c ∈ k, isWordChar c = true) ∧
    (∀ (sc : ScreenshotData) (t : JStr),
       replaceFilenameTemplatePlaceholders t sc =
         renderAll (getPlaceholderLookup sc) (tokenSplit t)) ∧
    (∀ (sc : ScreenshotData) (t k : JStr),
       TemplateSeg.tok k ∈ tokenSplit t →
       lookupPlaceholder (getPlaceholderLookup sc) k = none →
       ∃ a b, replaceFilenameTemplatePlaceholders t sc =
         a ++ ('%' :: (k ++ ['%'])) ++ b) ∧
    replaceFilenameTemplatePlaceholders "%capId%_%notexisting%_%parent%-%title%".data
        ⟨"ERROR_chrome_12345_67890.png".data, "2018-01-01T10:00:00.000Z".data,
         "parent".data, "title".data⟩ =
      "chrome_%notexisting%_parent-title".data := by
  have hmain : ∀ (sc : ScreenshotData) (t : JStr),
      replaceFilenameTemplatePlaceholders t sc =
        renderAll (getPlaceholderLookup sc) (tokenSplit t) :=
    fun sc t =>
      replaceTokens_eq_renderAll (getPlaceholderLookup sc) t.length t (Nat.le_refl _)
  refine ⟨fun t => flattenAll_tokenSplit t.length t (Nat.le_refl _),
    fun t k hk => tokenSplit_tok_shape t.length t (Nat.le_refl _) k hk,
    hmain, ?_, ?_⟩
  · intro sc t k hk hlk
    obtain ⟨l1, l2, hsplit⟩ := List.append_of_mem hk
    refine ⟨renderAll (getPlaceholderLookup sc) l1,
      renderAll (getPlaceholderLookup sc) l2, ?_⟩
    rw [hmain sc t, hsplit, renderAll_append]
    simp only [renderAll, renderSeg, hlk]
    simp [List.append_assoc]
  · rw [resolveTemplate_c4]
    decide

/-- Witness for C4: on the example template and record, the absent-key
token `%notexisting%` is a token of the template and reappears verbatim
in the resolved output. -/
theorem c4_unknown_placeholder_passthrough_witness :
    ∃ a b,
      replaceFilenameTemplatePlaceholders "%capId%_%notexisting%_%parent%-%title%".data
          ⟨"ERROR_chrome_12345_67890.png".data, "2018-01-01T10:00:00.000Z".data,
           "parent".data, "title".data⟩ =
        a ++ ('%' :: ("notexisting".data ++ ['%'])) ++ b :=
  c4_unknown_placeholder_passthrough.2.2.2.1 _ _ "notexisting".data
    (by rw [tokenSplit_c4_template]; decide) rfl

/-! ## Helper lemmas for slugify -/

/-- A lowercase word character (`a`-`z`, `0`-`9`, `_`; the caseless word
characters count as lowercase) or the delimiter `'-'`. -/
def isLowerWordDash (c : Char) : Bool :=
  (97 ≤ c.toNat && c.toNat ≤ 122) || (48 ≤ c.toNat && c.toNat ≤ 57) ||
  c = '_' || c = '-'

/-- No two adjacent characters of the list are both `'-'`. -/
def noDoubleDash : JStr → Bool
  | [] => true
  | [_] => true
  | a :: b :: cs => !(a = '-' && b = '-') && noDoubleDash (b :: cs)

theorem toNat_ofNat_valid {n : Nat} (h : n < 0xd800) : (Char.ofNat n).toNat = n := by
  rw [Char.ofNat, dif_pos (Or.inl h)]
  rfl

theorem isUpperAZ_toLowerJS (c : Char) : isUpperAZ (toLowerJS c) = false := by
  unfold toLowerJS
  by_cases h : isUpperAZ c = true
  · rw [if_pos h]
    simp only [isUpperAZ, Bool.and_eq_true, decide_eq_true_eq] at h
    rw [Bool.eq_false_iff]
    intro hx
    simp only [isUpperAZ, Bool.and_eq_true, decide_eq_true_eq] at hx
    rw [toNat_ofNat_valid (by omega)] at hx
    omega
  · rw [if_neg h]
    exact (Bool.not_eq_true _).mp h

theorem collapseRuns_cons_run {p : Char → Bool} {d a : Char} {cs : JStr}
    (ha : p a = true) (hcs : (cs.head?.map p).getD false = true) :
    collapseRuns p d (a :: cs) = collapseRuns p d cs := by
  rw [collapseRuns.eq_2, if_pos ha, if_pos hcs]

theorem collapseRuns_cons_end {p : Char → Bool} {d a : Char} {cs : JStr}
    (ha : p a = true) (hcs : (cs.head?.map p).getD false = false) :
    collapseRuns p d (a :: cs) = d :: collapseRuns p d cs := by
  rw [collapseRuns.eq_2, if_pos ha, if_neg (by rw [hcs]; exact Bool.false_ne_true)]

theorem collapseRuns_cons_keep {p : Char → Bool} {d a : Char} {cs : JStr}
    (ha : p a = false) :
    collapseRuns p d (a :: cs) = a :: collapseRuns p d cs := by
  rw [collapseRuns.eq_2, if_neg (by rw [ha]; exact Bool.false_ne_true)]

theorem mem_collapseRuns {p : Char → Bool} {d c : Char} :
    ∀ {l : JStr}, c ∈ collapseRuns p d l → c = d ∨ c ∈ l := by
  intro l
  induction l with
  | nil => intro h; cases h
  | cons a cs ih =>
    intro h
    by_cases hp : p a = true
    · by_cases hl : (cs.head?.map p).getD false = true
      · rw [collapseRuns_cons_run hp hl] at h
        rcases ih h with h' | h'
        · exact Or.inl h'
        · exact Or.inr (List.mem_cons_of_mem a h')
      · rw [Bool.not_eq_true] at hl
        rw [collapseRuns_cons_end hp hl] at h
        rcases List.mem_cons.mp h with rfl | h'
        · exact Or.inl rfl
        · rcases ih h' with h'' | h''
          · exact Or.inl h''
          · exact Or.inr (List.mem_cons_of_mem a h'')
    · rw [Bool.not_eq_true] at hp
      rw [collapseRuns_cons_keep hp] at h
      rcases List.mem_cons.mp h with rfl | h'
      · exact Or.inr (List.mem_cons_self _ _)
      · rcases ih h' with h'' | h''
        · exact Or.inl h''
        · exact Or.inr (List.mem_cons_of_mem a h'')

theorem mem_trimEndDash {c : Char} :
    ∀ {l : JStr}, c ∈ trimEndDash l → c ∈ l := by
  intro l
  induction l with
  | nil => intro h; cases h
  | cons a cs ih =>
    intro h
    cases htr : trimEndDash cs with
    | nil =>
      simp only [trimEndDash, htr] at h
      by_cases ha : a = '-'
      · rw [if_pos ha] at h
        cases h
      · rw [if_neg ha] at h
        rcases List.mem_singleton.mp h with rfl
        exact List.mem_cons_self _ _
    | cons x xs =>
      simp only [trimEndDash, htr] at h
      rcases List.mem_cons.mp h with rfl | h'
      · exact List.mem_cons_self _ _
      · exact List.mem_cons_of_mem a (ih (htr ▸ h'))

theorem mem_dropWhile {p : Char → Bool} {c : Char} {l : JStr}
    (h : c ∈ l.dropWhile p) : c ∈ l := by
  have heq : l.takeWhile p ++ l.dropWhile p = l := List.takeWhile_append_dropWhile p l
  rw [← heq]
  exact List.mem_append_right _ h

end Errorshot

namespace Errorshot

/-! ## Dash-run structure lemmas and C6 -/

theorem collapseRuns_head_keep {p : Char → Bool} {d a : Char} {cs : JStr}
    (ha : p a = false) :
    (collapseRuns p d (a :: cs)).head? = some a := by
  rw [collapseRuns_cons_keep ha]
  rfl

theorem collapseRuns_head_run {p : Char → Bool} {d : Char} :
    ∀ {l : JStr} {c : Char}, l.head? = some c → p c = true →
      (collapseRuns p d l).head? = some d := by
  intro l
  induction l with
  | nil => intro c h; cases h
  | cons a cs ih =>
    intro c h hp
    have ha : a = c := Option.some.inj h
    subst ha
    by_cases hl : (cs.head?.map p).getD false = true
    · rw [collapseRuns_cons_run hp hl]
      cases hcs : cs.head? with
      | none => rw [hcs] at hl; cases hl
      | some c2 =>
        rw [hcs] at hl
        simp only [Option.map_some', Option.getD_some] at hl
        exact ih hcs hl
    · rw [Bool.not_eq_true] at hl
      rw [collapseRuns_cons_end hp hl]
      rfl

theorem noDoubleDash_cons {a : Char} {l : JStr} (h1 : noDoubleDash l = true)
    (h2 : ∀ b, l.head? = some b → a = '-' → b = '-' → False) :
    noDoubleDash (a :: l) = true := by
  cases l with
  | nil => rfl
  | cons b bs =>
    rw [noDoubleDash.eq_3, h1, Bool.and_true, Bool.not_eq_true']
    by_cases ha : a = '-'
    · by_cases hb : b = '-'
      · exact (h2 b rfl ha hb).elim
      · simp [hb]
    · simp [ha]

theorem noDoubleDash_tail {a : Char} {l : JStr} (h : noDoubleDash (a :: l) = true) :
    noDoubleDash l = true := by
  cases l with
  | nil => rfl
  | cons b bs =>
    rw [noDoubleDash.eq_3, Bool.and_eq_true] at h
    exact h.2

theorem noDoubleDash_append_right {l2 : JStr} :
    ∀ {l1 : JStr}, noDoubleDash (l1 ++ l2) = true → noDoubleDash l2 = true := by
  intro l1
  induction l1 with
  | nil => exact fun h => h
  | cons a l1' ih =>
    intro h
    rw [List.cons_append] at h
    exact ih (noDoubleDash_tail h)

theorem noDoubleDash_append_left :
    ∀ {l1 l2 : JStr}, noDoubleDash (l1 ++ l2) = true → noDoubleDash l1 = true := by
  intro l1
  induction l1 with
  | nil => intro l2 _; rfl
  | cons a l1' ih =>
    intro l2 h
    cases l1' with
    | nil => rfl
    | cons b l1'' =>
      rw [List.cons_append, List.cons_append, noDoubleDash.eq_3,
        Bool.and_eq_true] at h
      rw [noDoubleDash.eq_3, Bool.and_eq_true]
      refine ⟨h.1, ?_⟩
      refine ih (show noDoubleDash ((b :: l1'') ++ l2) = true from ?_)
      rw [List.cons_append]
      exact h.2

end Errorshot

namespace Errorshot

theorem noDoubleDash_collapse (l : JStr) :
    noDoubleDash (collapseRuns (· = '-') '-' l) = true := by
  induction l with
  | nil => rfl
  | cons a cs ih =>
    by_cases ha : (decide (a = '-')) = true
    · by_cases hl : (cs.head?.map (fun c => decide (c = '-'))).getD false = true
      · rw [collapseRuns_cons_run ha hl]
        exact ih
      · rw [Bool.not_eq_true] at hl
        rw [collapseRuns_cons_end ha hl]
        refine noDoubleDash_cons ih ?_
        intro b hb _ hbd
        cases cs with
        | nil => cases hb
        | cons c2 cs2 =>
          simp only [List.head?_cons, Option.map_some', Option.getD_some] at hl
          have hc2 : (collapseRuns (· = '-') '-' (c2 :: cs2)).head? = some c2 :=
            collapseRuns_head_keep hl
          rw [hc2] at hb
          have : c2 = b := Option.some.inj hb
          subst this
          simp [hbd] at hl
    · rw [Bool.not_eq_true] at ha
      rw [collapseRuns_cons_keep ha]
      refine noDoubleDash_cons ih ?_
      intro b _ had _
      rw [had] at ha
      simp at ha

theorem head?_dropWhile_ne {p : Char → Bool} {l : JStr} {x : Char}
    (h : (l.dropWhile p).head? = some x) : p x = false := by
  have hm := List.head?_dropWhile_not p l
  rw [h] at hm
  exact hm

theorem trimEndDash_getLast (l : JStr) :
    (trimEndDash l).getLast? ≠ some '-' := by
  induction l with
  | nil => simp [trimEndDash]
  | cons a cs ih =>
    rw [trimEndDash.eq_2]
    cases htr : trimEndDash cs with
    | nil =>
      by_cases ha : a = '-'
      · simp [ha]
      · simp [ha]
    | cons x xs =>
      simp only [List.getLast?_cons_cons]
      rw [← htr]
      exact ih

theorem trimEndDash_split (l : JStr) : ∃ t, l = trimEndDash l ++ t := by
  induction l with
  | nil => exact ⟨[], rfl⟩
  | cons a cs ih =>
    obtain ⟨t, ht⟩ := ih
    rw [trimEndDash.eq_2]
    cases htr : trimEndDash cs with
    | nil =>
      by_cases ha : a = '-'
      · exact ⟨a :: cs, by simp [ha]⟩
      · exact ⟨cs, by simp [ha]⟩
    | cons x xs =>
      refine ⟨t, ?_⟩
      rw [htr] at ht
      simp [ht]

theorem trimEndDash_head (l : JStr) :
    (trimEndDash l).head? = none ∨ (trimEndDash l).head? = l.head? := by
  cases l with
  | nil => exact Or.inl rfl
  | cons a cs =>
    rw [trimEndDash.eq_2]
    cases htr : trimEndDash cs with
    | nil =>
      by_cases ha : a = '-'
      · exact Or.inl (by simp [ha])
      · exact Or.inr (by simp [ha])
    | cons x xs => exact Or.inr rfl

end Errorshot

namespace Errorshot

/-- C6.  For every string `s`, `slugify s` contains only lowercase word
characters and the delimiter `'-'`, has no leading delimiter, no trailing
delimiter, and no run of two or more consecutive delimiters. -/
theorem c6_slugify_shape (s : JStr) :
    (∀ c ∈ slugify s, isLowerWordDash c = true) ∧
    (slugify s).head? ≠ some '-' ∧
    (slugify s).getLast? ≠ some '-' ∧
    noDoubleDash (slugify s) = true := by
  have e : slugify s = trimEndDash (List.dropWhile (· = '-')
      (collapseRuns (· = '-') '-'
        (List.filter (fun c => isWordChar c || c = '-')
          (collapseRuns isSpaceJS '-' (s.map toLowerJS))))) := rfl
  rw [e]
  refine ⟨?_, ?_, ?_, ?_⟩
  · intro c hc
    have hc4 := mem_dropWhile (mem_trimEndDash hc)
    rcases mem_collapseRuns hc4 with rfl | hc2
    · rfl
    · have hkeep := (List.mem_filter.mp hc2).2
      have hc1 := (List.mem_filter.mp hc2).1
      rcases mem_collapseRuns hc1 with rfl | hc0
      · rfl
      · rw [List.mem_map] at hc0
        obtain ⟨x, _, rfl⟩ := hc0
        have hup := isUpperAZ_toLowerJS x
        revert hkeep hup
        generalize toLowerJS x = c
        intro hkeep hup
        rw [Bool.eq_false_iff] at hup
        simp only [isWordChar, isUpperAZ, isLowerWordDash, Bool.or_eq_true,
          Bool.and_eq_true, decide_eq_true_eq] at hkeep ⊢
        have hup2 : ¬(65 ≤ c.toNat ∧ c.toNat ≤ 90) := by
          intro hx
          simp only [isUpperAZ] at hup
          exact hup (by simp [hx.1, hx.2])
        tauto
  · rcases trimEndDash_head (List.dropWhile (· = '-')
        (collapseRuns (· = '-') '-'
          (List.filter (fun c => isWordChar c || c = '-')
            (collapseRuns isSpaceJS '-' (s.map toLowerJS))))) with h | h
    · rw [h]
      simp
    · rw [h]
      intro hx
      have := head?_dropWhile_ne hx
      simp at this
  · exact trimEndDash_getLast _
  · have h3 := noDoubleDash_collapse
      (List.filter (fun c => isWordChar c || c = '-')
        (collapseRuns isSpaceJS '-' (s.map toLowerJS)))
    have h4 : noDoubleDash (List.dropWhile (· = '-')
        (collapseRuns (· = '-') '-'
          (List.filter (fun c => isWordChar c || c = '-')
            (collapseRuns isSpaceJS '-' (s.map toLowerJS))))) = true := by
      have hsplit : List.takeWhile (· = '-')
            (collapseRuns (· = '-') '-'
              (List.filter (fun c => isWordChar c || c = '-')
                (collapseRuns isSpaceJS '-' (s.map toLowerJS)))) ++
          List.dropWhile (· = '-')
            (collapseRuns (· = '-') '-'
              (List.filter (fun c => isWordChar c || c = '-')
                (collapseRuns isSpaceJS '-' (s.map toLowerJS)))) =
          collapseRuns (· = '-') '-'
            (List.filter (fun c => isWordChar c || c = '-')
              (collapseRuns isSpaceJS '-' (s.map toLowerJS))) :=
        List.takeWhile_append_dropWhile _ _
      exact noDoubleDash_append_right (hsplit.symm ▸ h3)
    obtain ⟨t, ht⟩ := trimEndDash_split (List.dropWhile (· = '-')
        (collapseRuns (· = '-') '-'
          (List.filter (fun c => isWordChar c || c = '-')
            (collapseRuns isSpaceJS '-' (s.map toLowerJS)))))
    exact noDoubleDash_append_left (ht ▸ h4)

end Errorshot

namespace Errorshot

/-- Witness for C6 at a concrete string with spaces, punctuation, uppercase
letters and a double dash. -/
theorem c6_slugify_shape_witness :
    isLowerWordDash 'l' = true ∧
    (slugify " Lorem -- Ipsum! ".data).head? ≠ some '-' ∧
    (slugify " Lorem -- Ipsum! ".data).getLast? ≠ some '-' ∧
    noDoubleDash (slugify " Lorem -- Ipsum! ".data) = true := by
  obtain ⟨h1, h2, h3, h4⟩ := c6_slugify_shape " Lorem -- Ipsum! ".data
  exact ⟨h1 'l' (by decide), h2, h3, h4⟩

end Errorshot
